import Mathlib

/-!
Shallow embedding of the adaptive-learning core of the lithuanianquiz
repository: the files quiz.py, adaptive.py, adaptive_learning_service.py and
the row lookup of main.py.

Python dicts are modelled as insertion-ordered association lists (a Python
dict preserves insertion order, overwrites a present key in place, and
appends an absent key at the end), in-place mutation as explicit state
passing, every random draw as an explicit oracle input carried by a `RandomDraws`
record, and fallible operations return `Option` or `Except`.
-/

/-- Python `d[k]` read: the value stored at the first (only) entry whose key
equals `k`, or `none` when the key is absent. -/
def lookupA {α β : Type} [DecidableEq α] : List (α × β) → α → Option β
  | [], _ => none
  | (k, v) :: rest, key => if key = k then some v else lookupA rest key

/-- Update the value at a present key in place, keeping its position; a list
without the key is returned unchanged. -/
def modifyA {α β : Type} [DecidableEq α] : List (α × β) → α → (β → β) → List (α × β)
  | [], _, _ => []
  | (k, v) :: rest, key, f => if key = k then (k, f v) :: rest else (k, v) :: modifyA rest key f

/-- Python `d[k] = v`: overwrite in place when the key is present, append at
the end when it is absent. -/
def insertA {α β : Type} [DecidableEq α] (d : List (α × β)) (key : α) (val : β) :
    List (α × β) :=
  if (lookupA d key).isSome then modifyA d key (fun _ => val) else d ++ [(key, val)]

/-- Counters of one bandit arm: `{"correct": c, "incorrect": i}`. -/
structure ArmStats where
  correct : Nat
  incorrect : Nat
deriving DecidableEq

/-- One performance category: a Python dict from arm name to its counters. -/
abbrev Arms := List (String × ArmStats)

/-- quiz.py `EXERCISE_TYPES`. -/
def EXERCISE_TYPES : List String := ["kokia", "kiek"]

/-- quiz.py `ITEMS`. -/
def ITEMS : List String := ["knyga", "puodelis", "marškinėliai", "žurnalas", "kepurė"]

/-- quiz.py `number_pattern`: categorize a number for adaptive tracking. -/
def number_pattern (n : Nat) : String :=
  if n < 10 then "single_digit"
  else if n < 20 then "teens"
  else if n % 10 = 0 then "decade"
  else "compound"

/-- adaptive.py `_bump`: create the arm if missing (seeded `correct=0`,
`incorrect=1`), then increment the `correct` or `incorrect` counter. -/
def bump (category : Arms) (key : String) (is_correct : Bool) : Arms :=
  let category :=
    if (lookupA category key).isSome then category else category ++ [(key, ⟨0, 1⟩)]
  modifyA category key
    (fun st => if is_correct then ⟨st.correct + 1, st.incorrect⟩ else ⟨st.correct, st.incorrect + 1⟩)

/-- Specification-side description of what one `_bump` does to the value at
the bumped key: the previous value, or the seed `⟨0, 1⟩` when the arm was
absent, with exactly one counter incremented. -/
def arm_step (is_correct : Bool) (prev : Option ArmStats) : ArmStats :=
  let st := prev.getD ⟨0, 1⟩
  if is_correct then ⟨st.correct + 1, st.incorrect⟩ else ⟨st.correct, st.incorrect + 1⟩

/-- Loop of Python `min(samples, key=samples.get)`: keep the current best key
and value, replacing the best only on a strictly smaller value. -/
def min_key_go (bk : String) (bv : ℚ) : List (String × ℚ) → String
  | [] => bk
  | (k, v) :: rest => if v < bv then min_key_go k v rest else min_key_go bk bv rest

/-- Python `min(samples, key=samples.get)` over an insertion-ordered dict:
the first key attaining the minimal value, `none` on the empty dict (where
Python raises `ValueError`). -/
def min_key : List (String × ℚ) → Option String
  | [] => none
  | (k, v) :: rest => some (min_key_go k v rest)

/-- The per-arm Beta draws of `_sample_weakest`: for the arm `a` with stats
`st` the oracle is consulted at shape parameters `st.correct + 1` and
`st.incorrect + 1`, in the iteration order of the dict. -/
def samples_of (arms : Arms) (draw : String → Nat → Nat → ℚ) : List (String × ℚ) :=
  arms.map (fun kv => (kv.1, draw kv.1 (kv.2.correct + 1) (kv.2.incorrect + 1)))

/-- adaptive.py `_sample_weakest` with the random Beta draws fixed as the
oracle `draw`: Thompson-sample every arm and return the arm with the lowest
draw. -/
def sample_weakest (arms : Arms) (draw : String → Nat → Nat → ℚ) : Option String :=
  min_key (samples_of arms draw)

/-- Specification-side predicate: position `i` of `l` holds `(k, v)` and `v`
is minimal among all values of `l`, strictly smaller than every value at an
earlier position (so `k` is the first key attaining the minimum). -/
def first_min_at (l : List (String × ℚ)) (i : Nat) (k : String) (v : ℚ) : Prop :=
  l[i]? = some (k, v) ∧ ∀ j e, l[j]? = some e → v ≤ e.2 ∧ (j < i → v < e.2)

/-- The per-learner performance block stored under `session["performance"]`. -/
structure Performance where
  exercise_types : Arms
  number_patterns : Arms
  grammatical_cases : Arms
  combined_arms : Arms
  total_exercises : Nat
deriving DecidableEq

/-- A learner session, reduced to the only field the core touches: `none`
models a session without a `"performance"` key. -/
abbrev Session := Option Performance

/-- The freshly seeded performance block installed by `init_tracking`. -/
def initial_performance : Performance :=
  { exercise_types := EXERCISE_TYPES.map (fun t => (t, ⟨0, 1⟩))
  , number_patterns := []
  , grammatical_cases := []
  , combined_arms := []
  , total_exercises := 0 }

/-- adaptive.py `AdaptiveLearning.init_tracking`: idempotently set up
performance tracking in the session. -/
def init_tracking (s : Session) : Session :=
  match s with
  | some p => some p
  | none => some initial_performance

/-- The `exercise_info` dict passed to `update`: `number_pattern` and
`grammatical_case` may be absent (`None`). -/
structure ExerciseInfo where
  exercise_type : String
  number_pattern : Option String
  grammatical_case : Option String
deriving DecidableEq

/-- Python truthiness of an optional string: `None` and `""` are falsy. -/
def truthy : Option String → Bool
  | none => false
  | some s => decide (s ≠ "")

/-- Body of adaptive.py `AdaptiveLearning.update` acting on the performance
block: bump the total, then bump every touched arm. -/
def update_perf (perf : Performance) (info : ExerciseInfo) (is_correct : Bool) : Performance :=
  let perf := { perf with total_exercises := perf.total_exercises + 1 }
  let perf := { perf with exercise_types := bump perf.exercise_types info.exercise_type is_correct }
  let perf :=
    if truthy info.number_pattern then
      { perf with number_patterns := bump perf.number_patterns (info.number_pattern.getD "") is_correct }
    else perf
  let perf :=
    if truthy info.grammatical_case then
      { perf with grammatical_cases := bump perf.grammatical_cases (info.grammatical_case.getD "") is_correct }
    else perf
  let perf :=
    if truthy info.number_pattern ∧ truthy info.grammatical_case then
      let combined := info.exercise_type ++ "_" ++ info.number_pattern.getD "" ++ "_" ++ info.grammatical_case.getD ""
      { perf with combined_arms := bump perf.combined_arms combined is_correct }
    else perf
  perf

/-- adaptive.py `AdaptiveLearning.update` (spec name `record_outcome`):
initialize tracking, then mutate the performance block in place. -/
def update (s : Session) (info : ExerciseInfo) (is_correct : Bool) : Session :=
  some (update_perf ((init_tracking s).getD initial_performance) info is_correct)

/-- One catalog row: its number and an opaque payload standing for the
grammatical phrase columns the selector never inspects. -/
structure Row where
  number : Nat
  data : String
deriving DecidableEq

/-- Python `random.choice(l)` with the random index fixed as the oracle `i`:
a uniformly random element, `none` on the empty list (where Python raises
`IndexError`). -/
def choice {α : Type} (l : List α) (i : Nat) : Option α :=
  l[i % l.length]?

/-- All random draws one `select_exercise` call can consume, fixed as
explicit oracle inputs: `u` is `random.random()`, the `idx` fields feed the
`random.choice` calls, and the `draw` fields feed `np.random.beta` keyed by
arm name and the two shape parameters. -/
structure RandomDraws where
  u : ℚ
  row_idx : Nat
  type_idx : Nat
  item_idx : Nat
  pat_row_idx : Nat
  match_idx : Nat
  fallback_row_idx : Nat
  draw_type : String → Nat → Nat → ℚ
  draw_pat : String → Nat → Nat → ℚ
  draw_combined : String → Nat → Nat → ℚ
  draw_case : String → Nat → Nat → ℚ

/-- The exercise dict returned by adaptive.py selection. -/
structure ExerciseSpec where
  exercise_type : String
  price : String
  item : Option String
  row : Row
  grammatical_case : String
  number_pattern : String
deriving DecidableEq

/-- Configuration of adaptive.py `AdaptiveLearning`. -/
structure AdaptiveLearning where
  exploration_rate : ℚ
  adaptation_threshold : Nat

/-- The constructor of `AdaptiveLearning`: the exploration rate is a
parameter (default 0.2) and the adaptation threshold is always 10. -/
def AdaptiveLearning.init (exploration_rate : ℚ) : AdaptiveLearning :=
  ⟨exploration_rate, 10⟩

/-- adaptive.py `AdaptiveLearning._random_exercise` (the Explore branch). -/
def random_exercise (rows : List Row) (r : RandomDraws) : Option ExerciseSpec :=
  match choice rows r.row_idx, choice EXERCISE_TYPES r.type_idx with
  | some row, some ex_type =>
      some
        { exercise_type := ex_type
        , price := "€" ++ toString row.number
        , item := if ex_type = "kiek" then choice ITEMS r.item_idx else none
        , row := row
        , grammatical_case := if ex_type = "kiek" then "accusative" else "nominative"
        , number_pattern := number_pattern row.number }
  | _, _ => none

/-- adaptive.py `AdaptiveLearning._thompson_sample` (the Exploit branch):
sample the weakest exercise type, then the weakest number pattern (falling
back to a random row's pattern when no pattern arms exist), pick a row
matching the pattern (falling back to a fully random row when none match),
and derive item and grammatical case from the exercise type. -/
def thompson_sample (perf : Performance) (rows : List Row) (r : RandomDraws) : Option ExerciseSpec :=
  match sample_weakest perf.exercise_types r.draw_type with
  | none => none
  | some ex_type =>
    match (if perf.number_patterns.isEmpty then
        (choice rows r.pat_row_idx).map (fun row => number_pattern row.number)
      else
        sample_weakest perf.number_patterns r.draw_pat) with
    | none => none
    | some np =>
      match (if (rows.filter (fun row => number_pattern row.number == np)).isEmpty
          then choice rows r.fallback_row_idx
          else choice (rows.filter (fun row => number_pattern row.number == np)) r.match_idx) with
      | none => none
      | some row =>
        some
          { exercise_type := ex_type
          , price := "€" ++ toString row.number
          , item := if ex_type = "kiek" then choice ITEMS r.item_idx else none
          , row := row
          , grammatical_case := if ex_type = "kiek" then "accusative" else "nominative"
          , number_pattern := number_pattern row.number }

/-- adaptive.py `AdaptiveLearning.select_exercise` (spec name `select`):
initialize tracking, then branch on the uniform draw and the adaptation
threshold. Returns the selected exercise together with the session, whose
only change is the `init_tracking` write-back. -/
def select_exercise (al : AdaptiveLearning) (s : Session) (rows : List Row) (r : RandomDraws) :
    Option ExerciseSpec × Session :=
  if r.u < al.exploration_rate
      ∨ ((init_tracking s).getD initial_performance).total_exercises < al.adaptation_threshold then
    (random_exercise rows r, init_tracking s)
  else
    (thompson_sample ((init_tracking s).getD initial_performance) rows r, init_tracking s)

/-- The per-category success rates computed by `get_weak_areas`: rate
`correct / (correct + incorrect)` of every arm with more than one
observation, in dict iteration order. -/
def success_rates (cat : Arms) : List (String × ℚ) :=
  cat.filterMap (fun kv =>
    if kv.2.correct + kv.2.incorrect > 1 then
      some (kv.1, (kv.2.correct : ℚ) / ((kv.2.correct + kv.2.incorrect : Nat) : ℚ))
    else none)

/-- Stable insertion into a list sorted ascending by rate: the new element
goes before the first element with a rate not below its own, as Python's
stable `list.sort` would leave it. -/
def insert_by_rate (x : String × ℚ) : List (String × ℚ) → List (String × ℚ)
  | [] => [x]
  | y :: ys => if x.2 ≤ y.2 then x :: y :: ys else y :: insert_by_rate x ys

/-- Python `rates.sort(key=lambda x: x[1])`: stable ascending sort by rate. -/
def sort_by_rate : List (String × ℚ) → List (String × ℚ)
  | [] => []
  | x :: xs => insert_by_rate x (sort_by_rate xs)

/-- adaptive.py `AdaptiveLearning.get_weak_areas` (spec name `weak_areas`):
for the three named categories, the up-to-3 weakest arms with real data. -/
def get_weak_areas (s : Session) : List (String × List (String × ℚ)) :=
  match s with
  | none => []
  | some perf =>
    [("Exercise Types", perf.exercise_types),
     ("Number Patterns", perf.number_patterns),
     ("Grammatical Cases", perf.grammatical_cases)].filterMap
      (fun lc =>
        if lc.2.isEmpty then none
        else if (success_rates lc.2).isEmpty then none
        else some (lc.1, (sort_by_rate (success_rates lc.2)).take 3))

/-- quiz.py `ExerciseEngine.__init__`: the `by_number` dict comprehension
`{r["number"]: r for r in rows}`. -/
def by_number (rows : List Row) : List (Nat × Row) :=
  rows.foldl (fun d row => insertA d row.number row) []

/-- quiz.py `ExerciseEngine.get_row`: dict indexing into `by_number`;
`none` models the `KeyError` raised and propagated when no row has the
number. -/
def get_row (rows : List Row) (n : Nat) : Option Row :=
  lookupA (by_number rows) n

namespace Main

/-- main.py `DatabaseService.get_row_by_number` (without its cache, which
only memoizes this very computation): scan the rows for the first one whose
number matches, raising `ValueError` otherwise. -/
def get_row_by_number (rows : List Row) (n : Nat) : Except String Row :=
  match rows.find? (fun row => row.number == n) with
  | some row => Except.ok row
  | none => Except.error ("No row found for number: " ++ toString n)

end Main

namespace Service

/-- adaptive_learning_service.py `AdaptiveLearningService._determine_number_pattern`. -/
def determine_number_pattern (n : Nat) : String :=
  if n < 10 then "single_digit"
  else if n < 20 then "teens"
  else if n % 10 = 0 then "decade"
  else "compound"

/-- adaptive_learning_service.py `AdaptiveLearningService._update_arm`. -/
def update_arm (category : Arms) (key : String) (is_correct : Bool) : Arms :=
  let category :=
    if (lookupA category key).isSome then category else category ++ [(key, ⟨0, 1⟩)]
  if is_correct then modifyA category key (fun st => ⟨st.correct + 1, st.incorrect⟩)
  else modifyA category key (fun st => ⟨st.correct, st.incorrect + 1⟩)

/-- The performance block seeded by `initialize_performance_tracking` of the
service (its exercise-type list is written out literally in the source). -/
def initial_performance : Performance :=
  { exercise_types := ["kokia", "kiek"].map (fun t => (t, ⟨0, 1⟩))
  , number_patterns := []
  , grammatical_cases := []
  , combined_arms := []
  , total_exercises := 0 }

/-- adaptive_learning_service.py `initialize_performance_tracking`. -/
def init_performance_tracking (s : Session) : Session :=
  match s with
  | some p => some p
  | none => some Service.initial_performance

/-- adaptive_learning_service.py `AdaptiveLearningService.update_performance`. -/
def update_performance (s : Session) (info : ExerciseInfo) (is_correct : Bool) : Session :=
  let perf := (init_performance_tracking s).getD Service.initial_performance
  let perf := { perf with total_exercises := perf.total_exercises + 1 }
  let perf := { perf with exercise_types := update_arm perf.exercise_types info.exercise_type is_correct }
  let perf :=
    if truthy info.number_pattern then
      { perf with number_patterns := update_arm perf.number_patterns (info.number_pattern.getD "") is_correct }
    else perf
  let perf :=
    if truthy info.grammatical_case then
      { perf with grammatical_cases := update_arm perf.grammatical_cases (info.grammatical_case.getD "") is_correct }
    else perf
  let perf :=
    if truthy info.number_pattern ∧ truthy info.grammatical_case then
      let combined := info.exercise_type ++ "_" ++ info.number_pattern.getD "" ++ "_" ++ info.grammatical_case.getD ""
      { perf with combined_arms := update_arm perf.combined_arms combined is_correct }
    else perf
  some perf

/-- The exercise dict returned by the service selection; unlike adaptive.py,
its exploit branch can carry `None` in `grammatical_case` and
`number_pattern` (parsed out of a combined-arm key). -/
structure ExerciseResult where
  exercise_type : String
  price : String
  item : Option String
  row : Row
  grammatical_case : Option String
  number_pattern : Option String
deriving DecidableEq

/-- adaptive_learning_service.py `_generate_random_exercise`. -/
def generate_random_exercise (rows : List Row) (r : RandomDraws) : Option ExerciseResult :=
  match choice rows r.row_idx, choice ["kokia", "kiek"] r.type_idx with
  | some row, some ex_type =>
      some
        { exercise_type := ex_type
        , price := "€" ++ toString row.number
        , item := if ex_type = "kiek" then choice ["knyga", "puodelis", "marškinėliai", "žurnalas", "kepurė"] r.item_idx else none
        , row := row
        , grammatical_case := some (if ex_type = "kiek" then "accusative" else "nominative")
        , number_pattern := some (determine_number_pattern row.number) }
  | _, _ => none

/-- adaptive_learning_service.py `_sample_weakest_exercise_type`. -/
def sample_weakest_exercise_type (perf : Performance) (draw : String → Nat → Nat → ℚ) : Option String :=
  min_key (samples_of perf.exercise_types draw)

/-- Python `s.split('_', 2)`: split at the underscore at most twice, the
last part keeping any further underscores. -/
def split_underscore_2 (s : String) : List String :=
  match s.splitOn "_" with
  | a :: b :: rest => if rest = [] then [a, b] else [a, b, String.intercalate "_" rest]
  | l => l

/-- adaptive_learning_service.py `_sample_from_combined_arms`: Thompson-sample
the relevant combined arms, then parse the weakest key back into a number
pattern and a grammatical case. -/
def sample_from_combined_arms (relevant : Arms) (draw : String → Nat → Nat → ℚ) :
    Option (Option String × Option String) :=
  match min_key (samples_of relevant draw) with
  | none => none
  | some selected =>
      let parts := split_underscore_2 selected
      some (parts[1]?, parts[2]?)

/-- adaptive_learning_service.py `_sample_number_pattern`. -/
def sample_number_pattern (perf : Performance) (rows : List Row) (r : RandomDraws) : Option String :=
  if perf.number_patterns.isEmpty then
    (choice rows r.pat_row_idx).map (fun row => determine_number_pattern row.number)
  else
    min_key (samples_of perf.number_patterns r.draw_pat)

/-- adaptive_learning_service.py `_sample_grammatical_case`. -/
def sample_grammatical_case (gram_cases : Arms) (draw : String → Nat → Nat → ℚ) : Option String :=
  min_key (samples_of gram_cases draw)

/-- adaptive_learning_service.py `_sample_separate_parameters`: sample the
number pattern, then the grammatical case whenever any case arm has data
(only defaulting to the exercise-type-derived case otherwise). -/
def sample_separate_parameters (perf : Performance) (ex_type : String) (rows : List Row)
    (r : RandomDraws) : Option (Option String × Option String) :=
  match sample_number_pattern perf rows r with
  | none => none
  | some np =>
      let gc := if ex_type = "kiek" then "accusative" else "nominative"
      let gc :=
        if perf.grammatical_cases.isEmpty then gc
        else (sample_grammatical_case perf.grammatical_cases r.draw_case).getD gc
      some (some np, some gc)

/-- adaptive_learning_service.py `_sample_parameters`: combined-arm sampling
whenever any combined arm starts with the chosen exercise type, otherwise
separate sampling. -/
def sample_parameters (perf : Performance) (ex_type : String) (rows : List Row)
    (r : RandomDraws) : Option (Option String × Option String) :=
  let relevant := perf.combined_arms.filter (fun kv => kv.1.startsWith (ex_type ++ "_"))
  if relevant.isEmpty then sample_separate_parameters perf ex_type rows r
  else sample_from_combined_arms relevant r.draw_combined

/-- adaptive_learning_service.py `_find_matching_row`. -/
def find_matching_row (rows : List Row) (np : Option String) (r : RandomDraws) : Option Row :=
  let matching := rows.filter (fun row => some (determine_number_pattern row.number) == np)
  if matching.isEmpty then none else choice matching r.match_idx

/-- adaptive_learning_service.py `_thompson_sample_exercise` (the service's
Exploit branch). -/
def thompson_sample_exercise (perf : Performance) (rows : List Row) (r : RandomDraws) :
    Option ExerciseResult :=
  match sample_weakest_exercise_type perf r.draw_type with
  | none => none
  | some ex_type =>
    match sample_parameters perf ex_type rows r with
    | none => none
    | some (np, gc) =>
      match find_matching_row rows np r with
      | none => generate_random_exercise rows r
      | some row =>
        some
          { exercise_type := ex_type
          , price := "€" ++ toString row.number
          , item := if ex_type = "kiek" then choice ["knyga", "puodelis", "marškinėliai", "žurnalas", "kepurė"] r.item_idx else none
          , row := row
          , grammatical_case := gc
          , number_pattern := np }

end Service

/-- One call against a session in the reachability model of the invariant:
`op_init` is `init_tracking`, `op_update` is `update` (`record_outcome`),
`op_select` is a `select_exercise` call keeping only its session effect, and
`op_weak` is the read-only `get_weak_areas`. -/
inductive Op where
  | op_init : Op
  | op_update : ExerciseInfo → Bool → Op
  | op_select : AdaptiveLearning → List Row → RandomDraws → Op
  | op_weak : Op

/-- Apply one call to the session state. -/
def apply_op (s : Session) : Op → Session
  | .op_init => init_tracking s
  | .op_update info b => update s info b
  | .op_select al rows r => (select_exercise al s rows r).2
  | .op_weak => s

/-- Every arm of the category has `incorrect` at least 1. -/
def arms_ok (a : Arms) : Bool :=
  a.all (fun kv => decide (1 ≤ kv.2.incorrect))

/-- The spec invariant: every `ArmStats` in every category mapping of the
session has `incorrect` at least 1. -/
def inv_ok (s : Session) : Bool :=
  match s with
  | none => true
  | some p =>
      arms_ok p.exercise_types && arms_ok p.number_patterns &&
      arms_ok p.grammatical_cases && arms_ok p.combined_arms

/-- Concrete exercise info used by the evaluation theorems below. -/
def info0 : ExerciseInfo := ⟨"kokia", some "teens", some "nominative"⟩

/-- Concrete all-zero random oracle used by the evaluation theorems below. -/
def rand0 : RandomDraws :=
  { u := 0, row_idx := 0, type_idx := 0, item_idx := 0, pat_row_idx := 0
  , match_idx := 0, fallback_row_idx := 0
  , draw_type := fun _ _ _ => 0, draw_pat := fun _ _ _ => 0
  , draw_combined := fun _ _ _ => 0, draw_case := fun _ _ _ => 0 }

/-- Concrete record exercising the service exploit branch: seeded exercise
types, one number-pattern arm, one grammatical-case arm, no combined arms. -/
def cex_perf : Performance :=
  { exercise_types := [("kokia", ⟨0, 1⟩), ("kiek", ⟨0, 1⟩)]
  , number_patterns := [("teens", ⟨1, 1⟩)]
  , grammatical_cases := [("locative", ⟨1, 1⟩)]
  , combined_arms := []
  , total_exercises := 20 }

/-- Concrete one-row catalog whose number is in the teens. -/
def cex_rows : List Row := [⟨15, "penkiolika"⟩]

/-- Concrete oracle whose exercise-type Beta draw is lowest for `"kokia"`. -/
def cex_rand : RandomDraws :=
  { rand0 with draw_type := fun a _ _ => if a = "kokia" then 0 else 1 }

/-- The exercise adaptive.py's exploit branch produces on `cex_perf`,
`cex_rows` and `cex_rand`. -/
def cex_spec : ExerciseSpec :=
  { exercise_type := "kokia"
  , price := "€15"
  , item := none
  , row := ⟨15, "penkiolika"⟩
  , grammatical_case := "nominative"
  , number_pattern := "teens" }

theorem lookupA_modifyA {α β : Type} [DecidableEq α] (d : List (α × β)) (key : α)
    (f : β → β) (k : α) :
    lookupA (modifyA d key f) k = if k = key then (lookupA d key).map f else lookupA d k := by
  induction d with
  | nil => simp [lookupA, modifyA]
  | cons hd tl ih =>
    obtain ⟨a, b⟩ := hd
    by_cases hka : key = a
    · subst hka
      by_cases hk : k = key <;> simp [lookupA, modifyA, hk]
    · by_cases hk : k = a
      · subst hk
        simp [lookupA, modifyA, hka, Ne.symm hka]
      · simp [lookupA, modifyA, hka, hk, ih]

theorem lookupA_append {α β : Type} [DecidableEq α] (d e : List (α × β)) (k : α) :
    lookupA (d ++ e) k = if (lookupA d k).isSome then lookupA d k else lookupA e k := by
  induction d with
  | nil => simp [lookupA]
  | cons hd tl ih =>
    obtain ⟨a, b⟩ := hd
    by_cases hk : k = a <;> simp [lookupA, hk, ih]

theorem lookupA_insertA {α β : Type} [DecidableEq α] (d : List (α × β)) (key : α)
    (val : β) (k : α) :
    lookupA (insertA d key val) k = if k = key then some val else lookupA d k := by
  unfold insertA
  cases h : (lookupA d key).isSome with
  | true =>
    obtain ⟨v, hv⟩ := Option.isSome_iff_exists.mp h
    simp [lookupA_modifyA, hv]
  | false =>
    have hnone : lookupA d key = none := Option.not_isSome_iff_eq_none.mp (by simp [h])
    rw [if_neg (by simp [h]), lookupA_append]
    by_cases hk : k = key
    · subst hk; simp [hnone, lookupA]
    · cases h2 : lookupA d k <;> simp [lookupA, hk, h2]

theorem lookupA_bump (cat : Arms) (key : String) (b : Bool) (k : String) :
    lookupA (bump cat key b) k =
      if k = key then some (arm_step b (lookupA cat key)) else lookupA cat k := by
  unfold bump arm_step
  cases h : lookupA cat key with
  | some v =>
    rw [if_pos (by simp [h])]
    simp [lookupA_modifyA, h]
  | none =>
    rw [if_neg (by simp [h])]
    rw [lookupA_modifyA]
    have hmid : lookupA (cat ++ [(key, (⟨0, 1⟩ : ArmStats))]) key = some ⟨0, 1⟩ := by
      rw [lookupA_append]; simp [h, lookupA]
    by_cases hk : k = key
    · subst hk; simp [hmid]
    · rw [if_neg hk, if_neg hk, lookupA_append]
      cases h2 : lookupA cat k <;> simp [lookupA, hk, h2]

/-- C6: `number_pattern` (and the service's copy of it) is a pure total
function on the non-negative integers whose four categories partition them
with no gaps: single_digit on 0..9, teens on 10..19, decade on multiples of
10 from 20 up, compound on everything else. -/
theorem number_pattern_partition (n : Nat) :
    (number_pattern n = "single_digit" ↔ n ≤ 9)
  ∧ (number_pattern n = "teens" ↔ 10 ≤ n ∧ n ≤ 19)
  ∧ (number_pattern n = "decade" ↔ 20 ≤ n ∧ n % 10 = 0)
  ∧ (number_pattern n = "compound" ↔
      ¬ n ≤ 9 ∧ ¬ (10 ≤ n ∧ n ≤ 19) ∧ ¬ (20 ≤ n ∧ n % 10 = 0))
  ∧ (number_pattern n = "single_digit" ∨ number_pattern n = "teens" ∨
      number_pattern n = "decade" ∨ number_pattern n = "compound")
  ∧ Service.determine_number_pattern n = number_pattern n := by
  unfold number_pattern Service.determine_number_pattern
  split_ifs with h1 h2 h3 <;> refine ⟨?_, ?_, ?_, ?_, ?_, rfl⟩ <;> simp <;> omega

/-- Witness for C6 at the concrete input 25. -/
theorem number_pattern_partition_witness : number_pattern 25 = "compound" :=
  ((number_pattern_partition 25).2.2.2.1).mpr ⟨by decide, by decide, by decide⟩

theorem bump_eq_update_arm (cat : Arms) (key : String) (b : Bool) :
    bump cat key b = Service.update_arm cat key b := by
  cases b <;> simp [bump, Service.update_arm]

/-- C10: the two copies of the update operation are extensionally equal:
`AdaptiveLearning.update` of adaptive.py and the service's
`update_performance` produce identical resulting sessions for every session,
exercise info and correctness flag. -/
theorem update_extensional_equiv (s : Session) (info : ExerciseInfo) (b : Bool) :
    update s info b = Service.update_performance s info b := by
  have hi : Service.init_performance_tracking s = init_tracking s := by
    cases s <;> rfl
  have hd : (init_tracking s).getD Service.initial_performance
      = (init_tracking s).getD initial_performance := by
    cases s <;> rfl
  simp only [update, update_perf, Service.update_performance, hi, hd, bump_eq_update_arm]

/-- C4 (amended): in adaptive.py's exploit branch, grammatical-case and
combined-arm statistics never feed the Thompson step — the result is
unchanged under arbitrary replacement of those two mappings, the exercise
type is the weakest-sampled exercise-type arm, and the grammatical case is
derived deterministically from it. (The service's exploit branch does not
have this property, see the counterexample.) -/
theorem thompson_sample_cases_unused (perf : Performance) (rows : List Row) (r : RandomDraws) :
    (∀ g c, thompson_sample { perf with grammatical_cases := g, combined_arms := c } rows r
        = thompson_sample perf rows r)
  ∧ (∀ spec, thompson_sample perf rows r = some spec →
      spec.grammatical_case = (if spec.exercise_type = "kiek" then "accusative" else "nominative")
      ∧ sample_weakest perf.exercise_types r.draw_type = some spec.exercise_type) := by
  constructor
  · intro g c; rfl
  · intro spec h
    unfold thompson_sample at h
    cases het : sample_weakest perf.exercise_types r.draw_type with
    | none => rw [het] at h; exact Option.noConfusion h
    | some et =>
      simp only [het] at h
      cases hnp : (if perf.number_patterns.isEmpty then
          (choice rows r.pat_row_idx).map (fun row => number_pattern row.number)
        else sample_weakest perf.number_patterns r.draw_pat) with
      | none => rw [hnp] at h; exact Option.noConfusion h
      | some np =>
        simp only [hnp] at h
        cases hrow : (if (rows.filter (fun row => number_pattern row.number == np)).isEmpty
            then choice rows r.fallback_row_idx
            else choice (rows.filter (fun row => number_pattern row.number == np)) r.match_idx) with
        | none => rw [hrow] at h; exact Option.noConfusion h
        | some row =>
          simp only [hrow, Option.some.injEq] at h
          subst h
          exact ⟨rfl, rfl⟩

/-- Witness for C4's amended theorem on a fully concrete exploit-branch run. -/
theorem thompson_sample_cases_unused_witness :
    thompson_sample cex_perf cex_rows cex_rand = some cex_spec
  ∧ cex_spec.grammatical_case
      = (if cex_spec.exercise_type = "kiek" then "accusative" else "nominative")
  ∧ sample_weakest cex_perf.exercise_types cex_rand.draw_type = some cex_spec.exercise_type := by
  refine ⟨by decide, ?_, ?_⟩
  · exact ((thompson_sample_cases_unused cex_perf cex_rows cex_rand).2 cex_spec (by decide)).1
  · exact ((thompson_sample_cases_unused cex_perf cex_rows cex_rand).2 cex_spec (by decide)).2

/-- Counterexample to C4 as stated: the service's exploit branch
(`_thompson_sample_exercise`, cited by the claim) does sample the
grammatical-case arms — on `cex_perf` it picks exercise type "kokia" yet
returns grammatical case "locative", not the derived "nominative". -/
theorem service_exploit_samples_gram_case :
    (Service.thompson_sample_exercise cex_perf cex_rows cex_rand).map
        (fun res => (res.exercise_type, res.grammatical_case)) = some ("kokia", some "locative")
  ∧ (some "locative" : Option String) ≠ some "nominative" :=
  ⟨by decide, by decide⟩

theorem choice_isSome {α : Type} (l : List α) (i : Nat) (h : l ≠ []) :
    (choice l i).isSome = true := by
  unfold choice
  have hlt : i % l.length < l.length := Nat.mod_lt _ (List.length_pos.mpr h)
  simp [List.getElem?_eq_getElem hlt]

theorem min_key_isSome (l : List (String × ℚ)) (h : l ≠ []) : (min_key l).isSome = true := by
  cases l with
  | nil => exact absurd rfl h
  | cons x xs => rfl

theorem sample_weakest_isSome (arms : Arms) (draw : String → Nat → Nat → ℚ)
    (h : arms ≠ []) : (sample_weakest arms draw).isSome = true :=
  min_key_isSome _ (by simpa [samples_of] using h)

theorem random_exercise_isSome (rows : List Row) (r : RandomDraws) (h : rows ≠ []) :
    (random_exercise rows r).isSome = true := by
  obtain ⟨row, hr⟩ := Option.isSome_iff_exists.mp (choice_isSome rows r.row_idx h)
  obtain ⟨et, he⟩ :=
    Option.isSome_iff_exists.mp (choice_isSome EXERCISE_TYPES r.type_idx (by simp [EXERCISE_TYPES]))
  unfold random_exercise
  rw [hr, he]
  rfl

theorem thompson_sample_isSome (perf : Performance) (rows : List Row) (r : RandomDraws)
    (hrows : rows ≠ []) (het : perf.exercise_types ≠ []) :
    (thompson_sample perf rows r).isSome = true := by
  obtain ⟨et, he⟩ := Option.isSome_iff_exists.mp (sample_weakest_isSome _ r.draw_type het)
  have hnp : (if perf.number_patterns.isEmpty then
      (choice rows r.pat_row_idx).map (fun row => number_pattern row.number)
    else sample_weakest perf.number_patterns r.draw_pat).isSome = true := by
    split_ifs with hemp
    · simpa using choice_isSome rows r.pat_row_idx hrows
    · exact sample_weakest_isSome _ _ (by simpa [List.isEmpty_iff] using hemp)
  obtain ⟨np, hnp2⟩ := Option.isSome_iff_exists.mp hnp
  have hrow : (if (rows.filter (fun row => number_pattern row.number == np)).isEmpty
      then choice rows r.fallback_row_idx
      else choice (rows.filter (fun row => number_pattern row.number == np)) r.match_idx).isSome
        = true := by
    split_ifs with hemp
    · exact choice_isSome rows r.fallback_row_idx hrows
    · exact choice_isSome _ r.match_idx (by simpa [List.isEmpty_iff] using hemp)
  obtain ⟨row, hrow2⟩ := Option.isSome_iff_exists.mp hrow
  unfold thompson_sample
  simp only [he, hnp2, hrow2, Option.isSome_some]

/-- C5: `select_exercise` never mutates the session beyond the idempotent
`init_tracking` write-back: its session component is exactly
`init_tracking s`, on an already initialized session the session is returned
unchanged, `init_tracking` is idempotent, and (for a non-empty catalog and
seeded exercise types) an `ExerciseSpec` is returned. -/
theorem select_exercise_pure (al : AdaptiveLearning) (s : Session) (rows : List Row)
    (r : RandomDraws) :
    (select_exercise al s rows r).2 = init_tracking s
  ∧ (s.isSome = true → (select_exercise al s rows r).2 = s)
  ∧ init_tracking (init_tracking s) = init_tracking s
  ∧ (∀ perf, init_tracking s = some perf → rows ≠ [] → perf.exercise_types ≠ [] →
      ((select_exercise al s rows r).1).isSome = true) := by
  have hsnd : (select_exercise al s rows r).2 = init_tracking s := by
    unfold select_exercise
    split_ifs <;> rfl
  refine ⟨hsnd, ?_, ?_, ?_⟩
  · intro hs
    obtain ⟨p, hp⟩ := Option.isSome_iff_exists.mp hs
    subst hp
    exact hsnd
  · cases s <;> rfl
  · intro perf hperf hrows het
    unfold select_exercise
    rw [hperf]
    split_ifs
    · exact random_exercise_isSome rows r hrows
    · exact thompson_sample_isSome perf rows r hrows het

/-- Witness for C5 on a concrete initialized session. -/
theorem select_exercise_pure_witness :
    ((some initial_performance : Session).isSome = true)
  ∧ (select_exercise (AdaptiveLearning.init (1 / 5)) (some initial_performance) cex_rows rand0).2
      = some initial_performance
  ∧ ((select_exercise (AdaptiveLearning.init (1 / 5)) (some initial_performance) cex_rows
      rand0).1).isSome = true := by
  refine ⟨rfl, ?_, ?_⟩
  · exact (select_exercise_pure (AdaptiveLearning.init (1 / 5)) (some initial_performance)
      cex_rows rand0).2.1 rfl
  · exact (select_exercise_pure (AdaptiveLearning.init (1 / 5)) (some initial_performance)
      cex_rows rand0).2.2.2 initial_performance rfl (by decide) (by decide)

theorem by_number_loop (rows : List Row) (d : List (Nat × Row)) (n : Nat) :
    (lookupA (rows.foldl (fun d row => insertA d row.number row) d) n = none
      ↔ (lookupA d n = none ∧ ∀ row ∈ rows, row.number ≠ n))
  ∧ (∀ row2, lookupA (rows.foldl (fun d row => insertA d row.number row) d) n = some row2 →
      lookupA d n = some row2 ∨ (row2 ∈ rows ∧ row2.number = n)) := by
  induction rows generalizing d with
  | nil => simp [List.foldl_nil]
  | cons row rows ih =>
    simp only [List.foldl_cons]
    obtain ⟨ih1, ih2⟩ := ih (insertA d row.number row)
    constructor
    · rw [ih1, lookupA_insertA]
      constructor
      · rintro ⟨h1, h2⟩
        split_ifs at h1 with hn
        · exact ⟨h1, by
            intro row3 hr3
            rcases List.mem_cons.mp hr3 with rfl | hmem
            · exact fun hc => hn hc.symm
            · exact h2 row3 hmem⟩
      · rintro ⟨h1, h2⟩
        have hne : row.number ≠ n := h2 row (List.mem_cons_self row rows)
        refine ⟨?_, fun row3 hmem => h2 row3 (List.mem_cons_of_mem _ hmem)⟩
        rw [if_neg (fun hc => hne hc.symm)]
        exact h1
    · intro row2 h
      rcases ih2 row2 h with h2 | h2
      · rw [lookupA_insertA] at h2
        split_ifs at h2 with hn
        · refine Or.inr ⟨?_, ?_⟩
          · rw [← Option.some.inj h2]; exact List.mem_cons_self row rows
          · rw [← Option.some.inj h2]; exact hn.symm
        · exact Or.inl h2
      · exact Or.inr ⟨List.mem_cons_of_mem _ h2.1, h2.2⟩

/-- C9: for every number without a catalog row, both lookups fail with an
explicitly typed error (an absent key for quiz.py's `get_row`, a raised
`ValueError` for main.py's `get_row_by_number`), and for every number with a
(unique) row both return that row. -/
theorem get_row_spec (rows : List Row) (n : Nat) :
    (get_row rows n = none ↔ ∀ row ∈ rows, row.number ≠ n)
  ∧ (∀ row, get_row rows n = some row → row ∈ rows ∧ row.number = n)
  ∧ ((∃ e, Main.get_row_by_number rows n = Except.error e) ↔ ∀ row ∈ rows, row.number ≠ n)
  ∧ (∀ row, Main.get_row_by_number rows n = Except.ok row → row ∈ rows ∧ row.number = n)
  ∧ (∀ row ∈ rows, row.number = n → (∀ row2 ∈ rows, row2.number = n → row2 = row) →
      get_row rows n = some row ∧ Main.get_row_by_number rows n = Except.ok row) := by
  obtain ⟨h1, h2⟩ := by_number_loop rows [] n
  have hget1 : get_row rows n = none ↔ ∀ row ∈ rows, row.number ≠ n := by
    unfold get_row by_number
    rw [h1]
    simp [lookupA]
  have hget2 : ∀ row, get_row rows n = some row → row ∈ rows ∧ row.number = n := by
    intro row h
    rcases h2 row h with hc | hc
    · exact absurd hc (by simp [lookupA])
    · exact hc
  have hmain1 : (∃ e, Main.get_row_by_number rows n = Except.error e)
      ↔ ∀ row ∈ rows, row.number ≠ n := by
    unfold Main.get_row_by_number
    cases hf : rows.find? (fun row => row.number == n) with
    | some row =>
      simp only []
      constructor
      · rintro ⟨e, he⟩; exact Except.noConfusion he
      · intro hall
        have hp := List.find?_some hf
        have hmem := List.mem_of_find?_eq_some hf
        exact absurd (by simpa using hp) (hall row hmem)
    | none =>
      simp only []
      constructor
      · intro _
        intro row hmem
        have := List.find?_eq_none.mp hf row hmem
        simpa using this
      · intro _; exact ⟨_, rfl⟩
  have hmain2 : ∀ row, Main.get_row_by_number rows n = Except.ok row →
      row ∈ rows ∧ row.number = n := by
    intro row h
    unfold Main.get_row_by_number at h
    cases hf : rows.find? (fun row => row.number == n) with
    | some row2 =>
      rw [hf] at h
      have hr : row2 = row := Except.ok.inj h
      subst hr
      have hp := List.find?_some hf
      exact ⟨List.mem_of_find?_eq_some hf, by simpa using hp⟩
    | none => rw [hf] at h; exact Except.noConfusion h
  refine ⟨hget1, hget2, hmain1, hmain2, ?_⟩
  intro row hmem hnum huniq
  constructor
  · cases hg : get_row rows n with
    | none => exact absurd hnum (hget1.mp hg row hmem)
    | some row2 =>
      obtain ⟨hm2, hn2⟩ := hget2 row2 hg
      rw [huniq row2 hm2 hn2]
  · cases hg : Main.get_row_by_number rows n with
    | error e => exact absurd hnum ((hmain1.mp ⟨e, hg⟩) row hmem)
    | ok row2 =>
      obtain ⟨hm2, hn2⟩ := hmain2 row2 hg
      rw [huniq row2 hm2 hn2]

/-- Witness for C9 at a concrete one-row catalog. -/
theorem get_row_spec_witness :
    get_row cex_rows 3 = none
  ∧ get_row cex_rows 15 = some ⟨15, "penkiolika"⟩
  ∧ Main.get_row_by_number cex_rows 15 = Except.ok ⟨15, "penkiolika"⟩ := by
  refine ⟨?_, ?_, ?_⟩
  · exact (get_row_spec cex_rows 3).1.mpr (by decide)
  · exact ((get_row_spec cex_rows 15).2.2.2.2 ⟨15, "penkiolika"⟩ (by decide) rfl
      (by decide)).1
  · exact ((get_row_spec cex_rows 15).2.2.2.2 ⟨15, "penkiolika"⟩ (by decide) rfl
      (by decide)).2

theorem update_perf_eq (p : Performance) (info : ExerciseInfo) (b : Bool) :
    (update_perf p info b).total_exercises = p.total_exercises + 1
  ∧ (update_perf p info b).exercise_types = bump p.exercise_types info.exercise_type b
  ∧ (update_perf p info b).number_patterns =
      (if truthy info.number_pattern then
        bump p.number_patterns (info.number_pattern.getD "") b
       else p.number_patterns)
  ∧ (update_perf p info b).grammatical_cases =
      (if truthy info.grammatical_case then
        bump p.grammatical_cases (info.grammatical_case.getD "") b
       else p.grammatical_cases)
  ∧ (update_perf p info b).combined_arms =
      (if truthy info.number_pattern ∧ truthy info.grammatical_case then
        bump p.combined_arms
          (info.exercise_type ++ "_" ++ info.number_pattern.getD "" ++ "_" ++ info.grammatical_case.getD "") b
       else p.combined_arms) := by
  by_cases hnp : truthy info.number_pattern = true <;>
    by_cases hgc : truthy info.grammatical_case = true <;>
      simp [update_perf, hnp, hgc]

/-- C3: every `update` (`record_outcome`) call initializes tracking, adds
exactly 1 to `total_exercises`, and bumps exactly the touched arms: the
exercise-type arm always, the number-pattern and grammatical-case arms only
when the corresponding field is truthy, the underscore-joined combined arm
only when both are, each bumped arm moving from its previous value (or the
seed `correct=0, incorrect=1` when absent) by +1 on exactly the counter
selected by `is_correct`, while every other arm and category is unchanged. -/
theorem update_spec (s : Session) (info : ExerciseInfo) (b : Bool) :
    ∃ p0 p1, init_tracking s = some p0 ∧ update s info b = some p1
  ∧ p1.total_exercises = p0.total_exercises + 1
  ∧ (∀ k, lookupA p1.exercise_types k =
      if k = info.exercise_type then some (arm_step b (lookupA p0.exercise_types info.exercise_type))
      else lookupA p0.exercise_types k)
  ∧ (truthy info.number_pattern = false → p1.number_patterns = p0.number_patterns)
  ∧ (∀ np, info.number_pattern = some np → np ≠ "" →
      ∀ k, lookupA p1.number_patterns k =
        if k = np then some (arm_step b (lookupA p0.number_patterns np))
        else lookupA p0.number_patterns k)
  ∧ (truthy info.grammatical_case = false → p1.grammatical_cases = p0.grammatical_cases)
  ∧ (∀ gc, info.grammatical_case = some gc → gc ≠ "" →
      ∀ k, lookupA p1.grammatical_cases k =
        if k = gc then some (arm_step b (lookupA p0.grammatical_cases gc))
        else lookupA p0.grammatical_cases k)
  ∧ ((truthy info.number_pattern = false ∨ truthy info.grammatical_case = false) →
      p1.combined_arms = p0.combined_arms)
  ∧ (∀ np gc, info.number_pattern = some np → np ≠ "" →
      info.grammatical_case = some gc → gc ≠ "" →
      ∀ k, lookupA p1.combined_arms k =
        if k = info.exercise_type ++ "_" ++ np ++ "_" ++ gc then
          some (arm_step b (lookupA p0.combined_arms (info.exercise_type ++ "_" ++ np ++ "_" ++ gc)))
        else lookupA p0.combined_arms k) := by
  obtain ⟨p0, hp0⟩ : ∃ p0, init_tracking s = some p0 := by cases s <;> exact ⟨_, rfl⟩
  have hd : (init_tracking s).getD initial_performance = p0 := by rw [hp0]; rfl
  refine ⟨p0, update_perf p0 info b, hp0, by rw [update, hd], ?_⟩
  obtain ⟨h1, h2, h3, h4, h5⟩ := update_perf_eq p0 info b
  refine ⟨h1, ?_, ?_, ?_, ?_, ?_, ?_, ?_⟩
  · intro k; rw [h2, lookupA_bump]
  · intro hf; rw [h3, if_neg (by simp [hf])]
  · intro np hnp hne k
    have ht : truthy info.number_pattern = true := by simp [truthy, hnp, hne]
    rw [h3, if_pos ht, hnp]
    exact lookupA_bump p0.number_patterns np b k
  · intro hf; rw [h4, if_neg (by simp [hf])]
  · intro gc hgc hne k
    have ht : truthy info.grammatical_case = true := by simp [truthy, hgc, hne]
    rw [h4, if_pos ht, hgc]
    exact lookupA_bump p0.grammatical_cases gc b k
  · intro hf
    rw [h5, if_neg]
    rintro ⟨hc1, hc2⟩
    rcases hf with hf | hf
    · rw [hf] at hc1; exact Bool.noConfusion hc1
    · rw [hf] at hc2; exact Bool.noConfusion hc2
  · intro np gc hnp hnpne hgc hgcne k
    have ht1 : truthy info.number_pattern = true := by simp [truthy, hnp, hnpne]
    have ht2 : truthy info.grammatical_case = true := by simp [truthy, hgc, hgcne]
    rw [h5, if_pos ⟨ht1, ht2⟩, hnp, hgc]
    exact lookupA_bump p0.combined_arms (info.exercise_type ++ "_" ++ np ++ "_" ++ gc) b k

/-- Witness for C3: a concrete update on a fresh session, with the arm
lookups it promises evaluated concretely. -/
theorem update_spec_witness :
    ∃ p0 p1, init_tracking (none : Session) = some p0 ∧ update none info0 true = some p1
  ∧ p1.total_exercises = p0.total_exercises + 1
  ∧ lookupA p1.exercise_types "kokia" = some (arm_step true (lookupA p0.exercise_types "kokia"))
  ∧ lookupA p1.number_patterns "teens" = some (arm_step true (lookupA p0.number_patterns "teens"))
  ∧ lookupA p1.combined_arms "kokia_teens_nominative"
      = some (arm_step true (lookupA p0.combined_arms "kokia_teens_nominative")) := by
  obtain ⟨p0, p1, hp0, hp1, htot, het, _, hnp, _, _, _, hcomb⟩ := update_spec none info0 true
  refine ⟨p0, p1, hp0, hp1, htot, ?_, ?_, ?_⟩
  · have h := het "kokia"
    simpa [info0] using h
  · have h := hnp "teens" rfl (by decide) "teens"
    simpa [info0] using h
  · have h := hcomb "teens" "nominative" rfl (by decide) rfl (by decide) "kokia_teens_nominative"
    simpa [info0] using h

theorem min_key_go_spec (rest : List (String × ℚ)) (bk : String) (bv : ℚ) :
    (min_key_go bk bv rest = bk
      ∧ ∀ (j : Nat) (e : String × ℚ), rest[j]? = some e → bv ≤ e.2)
  ∨ (∃ (i : Nat) (v : ℚ), rest[i]? = some (min_key_go bk bv rest, v) ∧ v < bv
      ∧ ∀ (j : Nat) (e : String × ℚ), rest[j]? = some e → v ≤ e.2 ∧ (j < i → v < e.2)) := by
  induction rest generalizing bk bv with
  | nil => exact Or.inl ⟨rfl, by simp⟩
  | cons hd tl ih =>
    obtain ⟨k, v⟩ := hd
    by_cases hv : v < bv
    · rcases ih k v with ⟨h1, h2⟩ | ⟨i, w, hi, hw, hrest⟩
      · refine Or.inr ⟨0, v, ?_, hv, ?_⟩
        · simp [min_key_go, if_pos hv, h1]
        · intro j e hj
          cases j with
          | zero =>
            rw [List.getElem?_cons_zero] at hj
            obtain rfl := Option.some.inj hj
            exact ⟨le_refl _, fun hlt => absurd hlt (by omega)⟩
          | succ j2 =>
            rw [List.getElem?_cons_succ] at hj
            exact ⟨h2 j2 e hj, fun hlt => absurd hlt (by omega)⟩
      · refine Or.inr ⟨i + 1, w, ?_, lt_trans hw hv, ?_⟩
        · rw [List.getElem?_cons_succ]
          simpa [min_key_go, if_pos hv] using hi
        · intro j e hj
          cases j with
          | zero =>
            rw [List.getElem?_cons_zero] at hj
            obtain rfl := Option.some.inj hj
            exact ⟨le_of_lt hw, fun _ => hw⟩
          | succ j2 =>
            rw [List.getElem?_cons_succ] at hj
            obtain ⟨hle, hstr⟩ := hrest j2 e hj
            exact ⟨hle, fun hlt => hstr (by omega)⟩
    · rcases ih bk bv with ⟨h1, h2⟩ | ⟨i, w, hi, hw, hrest⟩
      · refine Or.inl ⟨?_, ?_⟩
        · simpa [min_key_go, if_neg hv] using h1
        · intro j e hj
          cases j with
          | zero =>
            rw [List.getElem?_cons_zero] at hj
            obtain rfl := Option.some.inj hj
            exact le_of_not_lt hv
          | succ j2 =>
            rw [List.getElem?_cons_succ] at hj
            exact h2 j2 e hj
      · refine Or.inr ⟨i + 1, w, ?_, hw, ?_⟩
        · rw [List.getElem?_cons_succ]
          simpa [min_key_go, if_neg hv] using hi
        · intro j e hj
          cases j with
          | zero =>
            rw [List.getElem?_cons_zero] at hj
            obtain rfl := Option.some.inj hj
            have hwv : w < v := lt_of_lt_of_le hw (le_of_not_lt hv)
            exact ⟨le_of_lt hwv, fun _ => hwv⟩
          | succ j2 =>
            rw [List.getElem?_cons_succ] at hj
            obtain ⟨hle, hstr⟩ := hrest j2 e hj
            exact ⟨hle, fun hlt => hstr (by omega)⟩

theorem min_key_first_min (l : List (String × ℚ)) (h : l ≠ []) :
    ∃ k i v, min_key l = some k ∧ first_min_at l i k v := by
  cases l with
  | nil => exact absurd rfl h
  | cons hd tl =>
    obtain ⟨k0, v0⟩ := hd
    rcases min_key_go_spec tl k0 v0 with ⟨h1, h2⟩ | ⟨i, w, hi, hw, hrest⟩
    · refine ⟨k0, 0, v0, by simp [min_key, h1], by simp, ?_⟩
      intro j e hj
      cases j with
      | zero =>
        rw [List.getElem?_cons_zero] at hj
        obtain rfl := Option.some.inj hj
        exact ⟨le_refl _, fun hlt => absurd hlt (by omega)⟩
      | succ j2 =>
        rw [List.getElem?_cons_succ] at hj
        exact ⟨h2 j2 e hj, fun hlt => absurd hlt (by omega)⟩
    · refine ⟨min_key_go k0 v0 tl, i + 1, w, by simp [min_key], ?_, ?_⟩
      · rw [List.getElem?_cons_succ]
        exact hi
      · intro j e hj
        cases j with
        | zero =>
          rw [List.getElem?_cons_zero] at hj
          obtain rfl := Option.some.inj hj
          exact ⟨le_of_lt hw, fun _ => hw⟩
        | succ j2 =>
          rw [List.getElem?_cons_succ] at hj
          obtain ⟨hle, hstr⟩ := hrest j2 e hj
          exact ⟨hle, fun hlt => hstr (by omega)⟩

/-- C1: `_sample_weakest` on a non-empty mapping, with the per-arm random
draws fixed as the oracle `draw`: each arm is sampled at Beta shape
parameters `correct + 1` and `incorrect + 1` in mapping order, and the
result is the key attaining the minimal draw, ties resolved in favour of
the earliest key in the mapping's iteration order. -/
theorem sample_weakest_spec (arms : Arms) (draw : String → Nat → Nat → ℚ) (h : arms ≠ []) :
    (∀ (j : Nat) (a : String) (st : ArmStats), arms[j]? = some (a, st) →
      (samples_of arms draw)[j]? = some (a, draw a (st.correct + 1) (st.incorrect + 1)))
  ∧ ∃ k i v, sample_weakest arms draw = some k ∧ first_min_at (samples_of arms draw) i k v := by
  constructor
  · intro j a st hj
    unfold samples_of
    rw [List.getElem?_map, hj]
    rfl
  · exact min_key_first_min (samples_of arms draw) (by simpa [samples_of] using h)

/-- Witness for C1 on a concrete two-arm mapping. -/
theorem sample_weakest_spec_witness :
    ([(("kokia" : String), (⟨0, 1⟩ : ArmStats)), ("kiek", ⟨3, 0⟩)] ≠ ([] : Arms))
  ∧ ∃ k i v, sample_weakest [("kokia", ⟨0, 1⟩), ("kiek", ⟨3, 0⟩)] (fun _ _ _ => (0 : ℚ)) = some k
      ∧ first_min_at (samples_of [("kokia", ⟨0, 1⟩), ("kiek", ⟨3, 0⟩)] (fun _ _ _ => (0 : ℚ))) i k v :=
  ⟨by simp, (sample_weakest_spec [("kokia", ⟨0, 1⟩), ("kiek", ⟨3, 0⟩)] (fun _ _ _ => (0 : ℚ))
      (by simp)).2⟩

/-- C2: `select_exercise` takes the Explore branch exactly when
`u < exploration_rate` or `total_exercises < 10` (the constructed threshold
is always 10); the Explore output is built from the uniformly chosen row and
exercise type, with an item only for "kiek", grammatical case accusative
exactly for "kiek", and `number_pattern` classifying the chosen row's
number; on a fresh session the Explore branch is always taken and a result
is always produced. -/
theorem select_exercise_explore_spec (er : ℚ) (s : Session) (rows : List Row) (r : RandomDraws)
    (hrows : rows ≠ []) :
    ∃ p0, init_tracking s = some p0
  ∧ (AdaptiveLearning.init er).adaptation_threshold = 10
  ∧ ((r.u < er ∨ p0.total_exercises < 10) →
      (select_exercise (AdaptiveLearning.init er) s rows r).1 = random_exercise rows r)
  ∧ (¬(r.u < er ∨ p0.total_exercises < 10) →
      (select_exercise (AdaptiveLearning.init er) s rows r).1 = thompson_sample p0 rows r)
  ∧ (∀ row ex_type, choice rows r.row_idx = some row →
      choice EXERCISE_TYPES r.type_idx = some ex_type →
      random_exercise rows r = some
        { exercise_type := ex_type
        , price := "€" ++ toString row.number
        , item := if ex_type = "kiek" then choice ITEMS r.item_idx else none
        , row := row
        , grammatical_case := if ex_type = "kiek" then "accusative" else "nominative"
        , number_pattern := number_pattern row.number })
  ∧ (s = none →
      p0.total_exercises = 0
      ∧ (select_exercise (AdaptiveLearning.init er) s rows r).1 = random_exercise rows r
      ∧ (random_exercise rows r).isSome = true) := by
  obtain ⟨p0, hp0⟩ : ∃ p0, init_tracking s = some p0 := by cases s <;> exact ⟨_, rfl⟩
  have hd : (init_tracking s).getD initial_performance = p0 := by rw [hp0]; rfl
  have hbr1 : (r.u < er ∨ p0.total_exercises < 10) →
      (select_exercise (AdaptiveLearning.init er) s rows r).1 = random_exercise rows r := by
    intro hcond
    unfold select_exercise
    rw [hd]
    split_ifs with hc
    · rfl
    · exact absurd hcond hc
  have hbr2 : ¬(r.u < er ∨ p0.total_exercises < 10) →
      (select_exercise (AdaptiveLearning.init er) s rows r).1 = thompson_sample p0 rows r := by
    intro hcond
    unfold select_exercise
    rw [hd]
    split_ifs with hc
    · exact absurd hc hcond
    · rfl
  have hre : ∀ row ex_type, choice rows r.row_idx = some row →
      choice EXERCISE_TYPES r.type_idx = some ex_type →
      random_exercise rows r = some
        { exercise_type := ex_type
        , price := "€" ++ toString row.number
        , item := if ex_type = "kiek" then choice ITEMS r.item_idx else none
        , row := row
        , grammatical_case := if ex_type = "kiek" then "accusative" else "nominative"
        , number_pattern := number_pattern row.number } := by
    intro row ex_type h1 h2
    unfold random_exercise
    rw [h1, h2]
  refine ⟨p0, hp0, rfl, hbr1, hbr2, hre, ?_⟩
  intro hs
  subst hs
  have hp00 : p0 = initial_performance := (Option.some.inj hp0).symm
  refine ⟨by rw [hp00]; rfl, hbr1 (Or.inr (by rw [hp00]; decide)),
    random_exercise_isSome rows r hrows⟩

/-- Witness for C2 on a fresh session and a concrete one-row catalog. -/
theorem select_exercise_explore_spec_witness :
    (cex_rows ≠ ([] : List Row))
  ∧ (select_exercise (AdaptiveLearning.init 1) none cex_rows rand0).1
      = random_exercise cex_rows rand0
  ∧ (random_exercise cex_rows rand0).isSome = true := by
  obtain ⟨p0, hp0, hth, hbr1, hbr2, hre, hfresh⟩ :=
    select_exercise_explore_spec 1 none cex_rows rand0 (by decide)
  obtain ⟨h1, h2, h3⟩ := hfresh rfl
  exact ⟨by decide, h2, h3⟩

theorem insert_by_rate_perm (x : String × ℚ) (l : List (String × ℚ)) :
    List.Perm (insert_by_rate x l) (x :: l) := by
  induction l with
  | nil => exact List.Perm.refl _
  | cons y ys ih =>
    unfold insert_by_rate
    split_ifs with h
    · exact List.Perm.refl _
    · exact (List.Perm.cons y ih).trans (List.Perm.swap x y ys)

theorem sort_by_rate_perm (l : List (String × ℚ)) : List.Perm (sort_by_rate l) l := by
  induction l with
  | nil => exact List.Perm.refl _
  | cons x xs ih =>
    exact (insert_by_rate_perm x (sort_by_rate xs)).trans (List.Perm.cons x ih)

theorem insert_by_rate_sorted (x : String × ℚ) (l : List (String × ℚ))
    (h : List.Pairwise (fun a b => a.2 ≤ b.2) l) :
    List.Pairwise (fun a b => a.2 ≤ b.2) (insert_by_rate x l) := by
  induction l with
  | nil => simp [insert_by_rate]
  | cons y ys ih =>
    obtain ⟨hy, hys⟩ := List.pairwise_cons.mp h
    unfold insert_by_rate
    split_ifs with hxy
    · refine List.pairwise_cons.mpr ⟨?_, h⟩
      intro e he
      rcases List.mem_cons.mp he with rfl | hmem
      · exact hxy
      · exact le_trans hxy (hy e hmem)
    · refine List.pairwise_cons.mpr ⟨?_, ih hys⟩
      intro e he
      have hmem := (insert_by_rate_perm x ys).mem_iff.mp he
      rcases List.mem_cons.mp hmem with rfl | hmem2
      · exact le_of_not_le hxy
      · exact hy e hmem2

theorem sort_by_rate_sorted (l : List (String × ℚ)) :
    List.Pairwise (fun a b => a.2 ≤ b.2) (sort_by_rate l) := by
  induction l with
  | nil => exact List.Pairwise.nil
  | cons x xs ih => exact insert_by_rate_sorted x (sort_by_rate xs) ih

theorem success_rates_mem (cat : Arms) (k : String) (q : ℚ) :
    (k, q) ∈ success_rates cat ↔
      ∃ st, (k, st) ∈ cat ∧ st.correct + st.incorrect > 1
        ∧ q = (st.correct : ℚ) / ((st.correct + st.incorrect : Nat) : ℚ) := by
  unfold success_rates
  rw [List.mem_filterMap]
  constructor
  · rintro ⟨⟨k2, st⟩, hmem, hf⟩
    dsimp only at hf
    split_ifs at hf with ht
    obtain ⟨rfl, rfl⟩ := Prod.mk.injEq .. ▸ Option.some.inj hf
    exact ⟨st, hmem, ht, rfl⟩
  · rintro ⟨st, hmem, ht, rfl⟩
    exact ⟨(k, st), hmem, by simp [ht]⟩

theorem success_rates_of_isEmpty (cat : Arms) (h : cat.isEmpty = true) :
    success_rates cat = [] := by
  rw [List.isEmpty_iff] at h
  subst h
  rfl

theorem get_weak_areas_entries (p : Performance) (label : String) (l : List (String × ℚ)) :
    (label, l) ∈ get_weak_areas (some p) →
      ∃ cat, ((label = "Exercise Types" ∧ cat = p.exercise_types)
            ∨ (label = "Number Patterns" ∧ cat = p.number_patterns)
            ∨ (label = "Grammatical Cases" ∧ cat = p.grammatical_cases))
        ∧ success_rates cat ≠ []
        ∧ l = (sort_by_rate (success_rates cat)).take 3 := by
  intro hmem
  unfold get_weak_areas at hmem
  obtain ⟨lc, hlc, hf⟩ := List.mem_filterMap.mp hmem
  have hstep : lc.2.isEmpty = false ∧ (success_rates lc.2).isEmpty = false
      ∧ label = lc.1 ∧ l = (sort_by_rate (success_rates lc.2)).take 3 := by
    split_ifs at hf with h1 h2
    obtain ⟨hl1, hl2⟩ := Prod.mk.injEq .. ▸ Option.some.inj hf
    exact ⟨Bool.of_not_eq_true h1, Bool.of_not_eq_true h2, hl1.symm, hl2.symm⟩
  obtain ⟨hc1, hc2, hlabel, hl⟩ := hstep
  have hne : success_rates lc.2 ≠ [] := by
    intro hcon
    rw [hcon] at hc2
    exact Bool.noConfusion hc2
  simp only [List.mem_cons, List.not_mem_nil, or_false] at hlc
  rcases hlc with h | h | h
  · exact ⟨p.exercise_types, Or.inl ⟨by rw [hlabel, h], rfl⟩,
      by rw [h] at hne; exact hne, by rw [h] at hl; exact hl⟩
  · exact ⟨p.number_patterns, Or.inr (Or.inl ⟨by rw [hlabel, h], rfl⟩),
      by rw [h] at hne; exact hne, by rw [h] at hl; exact hl⟩
  · exact ⟨p.grammatical_cases, Or.inr (Or.inr ⟨by rw [hlabel, h], rfl⟩),
      by rw [h] at hne; exact hne, by rw [h] at hl; exact hl⟩

theorem get_weak_areas_label_incl (p : Performance) (label : String) (cat : Arms)
    (hpair : (label = "Exercise Types" ∧ cat = p.exercise_types)
           ∨ (label = "Number Patterns" ∧ cat = p.number_patterns)
           ∨ (label = "Grammatical Cases" ∧ cat = p.grammatical_cases))
    (hne : success_rates cat ≠ []) :
    label ∈ (get_weak_areas (some p)).map Prod.fst := by
  have hc2 : (success_rates cat).isEmpty = false := by
    cases hsr : success_rates cat with
    | nil => exact absurd hsr hne
    | cons a l => rfl
  have hc1 : cat.isEmpty = false := by
    cases hc : cat.isEmpty with
    | false => rfl
    | true => exact absurd (success_rates_of_isEmpty cat hc) hne
  apply List.mem_map.mpr
  refine ⟨(label, (sort_by_rate (success_rates cat)).take 3), ?_, rfl⟩
  unfold get_weak_areas
  apply List.mem_filterMap.mpr
  refine ⟨(label, cat), ?_, ?_⟩
  · rcases hpair with ⟨hl, hc⟩ | ⟨hl, hc⟩ | ⟨hl, hc⟩ <;> subst hl <;> subst hc <;> simp
  · dsimp only
    rw [if_neg (by rw [hc1]; exact Bool.false_ne_true),
      if_neg (by rw [hc2]; exact Bool.false_ne_true)]

theorem get_weak_areas_label_excl (p : Performance) (label : String) (cat : Arms)
    (hpair : (label = "Exercise Types" ∧ cat = p.exercise_types)
           ∨ (label = "Number Patterns" ∧ cat = p.number_patterns)
           ∨ (label = "Grammatical Cases" ∧ cat = p.grammatical_cases))
    (hmem : label ∈ (get_weak_areas (some p)).map Prod.fst) :
    success_rates cat ≠ [] := by
  obtain ⟨⟨label2, l⟩, hx, hfst⟩ := List.mem_map.mp hmem
  dsimp only at hfst
  obtain ⟨cat2, hpair2, hne2, _⟩ := get_weak_areas_entries p label2 l hx
  subst hfst
  rcases hpair with ⟨hl, hc⟩ | ⟨hl, hc⟩ | ⟨hl, hc⟩ <;> subst hl <;> subst hc <;>
    rcases hpair2 with ⟨hl2, hc2⟩ | ⟨hl2, hc2⟩ | ⟨hl2, hc2⟩ <;>
      first
        | (subst hc2; exact hne2)
        | (exact absurd hl2 (by decide))

/-- C7: `get_weak_areas` (`weak_areas`) returns the empty mapping on a
session with no performance block; it never reads `combined_arms`; a
category's success rates are exactly `correct / (correct + incorrect)` of
the arms with more than one observation; every returned entry belongs to one
of the three named categories and lists at most 3 arms, sorted ascending, a
prefix of a sorted permutation of all qualifying rates of that category; and
a category label appears exactly when it has at least one qualifying arm. -/
theorem get_weak_areas_spec (p : Performance) :
    get_weak_areas (none : Session) = []
  ∧ (∀ ca, get_weak_areas (some { p with combined_arms := ca }) = get_weak_areas (some p))
  ∧ (∀ (cat : Arms) (k : String) (q : ℚ), (k, q) ∈ success_rates cat ↔
      ∃ st, (k, st) ∈ cat ∧ st.correct + st.incorrect > 1
        ∧ q = (st.correct : ℚ) / ((st.correct + st.incorrect : Nat) : ℚ))
  ∧ (∀ label l, (label, l) ∈ get_weak_areas (some p) →
      ∃ cat, ((label = "Exercise Types" ∧ cat = p.exercise_types)
            ∨ (label = "Number Patterns" ∧ cat = p.number_patterns)
            ∨ (label = "Grammatical Cases" ∧ cat = p.grammatical_cases))
        ∧ l.length ≤ 3
        ∧ List.Pairwise (fun a b => a.2 ≤ b.2) l
        ∧ ∃ full, List.Perm full (success_rates cat)
            ∧ List.Pairwise (fun a b => a.2 ≤ b.2) full
            ∧ l = full.take 3)
  ∧ (∀ label cat, ((label = "Exercise Types" ∧ cat = p.exercise_types)
        ∨ (label = "Number Patterns" ∧ cat = p.number_patterns)
        ∨ (label = "Grammatical Cases" ∧ cat = p.grammatical_cases)) →
      (label ∈ (get_weak_areas (some p)).map Prod.fst ↔ success_rates cat ≠ [])) := by
  refine ⟨rfl, fun ca => rfl, success_rates_mem, ?_, ?_⟩
  · intro label l hmem
    obtain ⟨cat, hpair, hne, hl⟩ := get_weak_areas_entries p label l hmem
    refine ⟨cat, hpair, ?_, ?_, sort_by_rate (success_rates cat),
      sort_by_rate_perm (success_rates cat), sort_by_rate_sorted (success_rates cat), hl⟩
    · rw [hl]
      exact List.length_take_le 3 (sort_by_rate (success_rates cat))
    · rw [hl]
      exact List.Pairwise.sublist (List.take_sublist 3 _)
        (sort_by_rate_sorted (success_rates cat))
  · intro label cat hpair
    exact ⟨get_weak_areas_label_excl p label cat hpair,
      get_weak_areas_label_incl p label cat hpair⟩

/-- Witness for C7 on the concrete record `cex_perf`. -/
theorem get_weak_areas_spec_witness :
    get_weak_areas (none : Session) = []
  ∧ get_weak_areas (some { cex_perf with combined_arms := [] }) = get_weak_areas (some cex_perf)
  ∧ ("teens", (1 : ℚ) / 2) ∈ success_rates cex_perf.number_patterns
  ∧ ("Number Patterns" ∈ (get_weak_areas (some cex_perf)).map Prod.fst
      ↔ success_rates cex_perf.number_patterns ≠ []) := by
  refine ⟨(get_weak_areas_spec cex_perf).1, (get_weak_areas_spec cex_perf).2.1 [], ?_, ?_⟩
  · exact ((get_weak_areas_spec cex_perf).2.2.1 cex_perf.number_patterns "teens" ((1 : ℚ) / 2)).mpr
      ⟨⟨1, 1⟩, by decide, by decide, by norm_num⟩
  · exact (get_weak_areas_spec cex_perf).2.2.2.2 "Number Patterns" cex_perf.number_patterns
      (Or.inr (Or.inl ⟨rfl, rfl⟩))

theorem arms_ok_modifyA (d : Arms) (key : String) (f : ArmStats → ArmStats)
    (hf : ∀ st, 1 ≤ st.incorrect → 1 ≤ (f st).incorrect) (h : arms_ok d = true) :
    arms_ok (modifyA d key f) = true := by
  induction d with
  | nil => rfl
  | cons hd tl ih =>
    obtain ⟨k, st⟩ := hd
    unfold arms_ok at h
    rw [List.all_cons, Bool.and_eq_true] at h
    obtain ⟨h1, h2⟩ := h
    unfold modifyA
    split_ifs with hk
    · unfold arms_ok
      rw [List.all_cons, Bool.and_eq_true]
      refine ⟨?_, h2⟩
      simp only [decide_eq_true_eq] at h1 ⊢
      exact hf st h1
    · unfold arms_ok
      rw [List.all_cons, Bool.and_eq_true]
      exact ⟨h1, ih h2⟩

theorem arms_ok_bump (cat : Arms) (key : String) (b : Bool) (h : arms_ok cat = true) :
    arms_ok (bump cat key b) = true := by
  unfold bump
  apply arms_ok_modifyA
  · intro st hst
    cases b <;> simp <;> omega
  · split_ifs with hc
    · exact h
    · unfold arms_ok at h ⊢
      rw [List.all_append, Bool.and_eq_true]
      exact ⟨h, by simp⟩

theorem inv_ok_init (s : Session) (h : inv_ok s = true) : inv_ok (init_tracking s) = true := by
  cases s with
  | some p => exact h
  | none => decide

theorem inv_ok_update_perf (p : Performance) (info : ExerciseInfo) (b : Bool)
    (h : inv_ok (some p) = true) : inv_ok (some (update_perf p info b)) = true := by
  obtain ⟨h1, h2, h3, h4, h5⟩ := update_perf_eq p info b
  unfold inv_ok at h ⊢
  simp only [Bool.and_eq_true] at h
  obtain ⟨⟨⟨he, hn⟩, hg⟩, hc⟩ := h
  rw [Bool.and_eq_true, Bool.and_eq_true, Bool.and_eq_true]
  refine ⟨⟨⟨?_, ?_⟩, ?_⟩, ?_⟩
  · rw [h2]; exact arms_ok_bump _ _ _ he
  · rw [h3]; split_ifs
    · exact arms_ok_bump _ _ _ hn
    · exact hn
  · rw [h4]; split_ifs
    · exact arms_ok_bump _ _ _ hg
    · exact hg
  · rw [h5]; split_ifs
    · exact arms_ok_bump _ _ _ hc
    · exact hc

theorem inv_ok_apply (s : Session) (op : Op) (h : inv_ok s = true) :
    inv_ok (apply_op s op) = true := by
  cases op with
  | op_init => exact inv_ok_init s h
  | op_update info b =>
    have hi := inv_ok_init s h
    obtain ⟨p, hp⟩ : ∃ p, init_tracking s = some p := by cases s <;> exact ⟨_, rfl⟩
    have hd : (init_tracking s).getD initial_performance = p := by rw [hp]; rfl
    show inv_ok (update s info b) = true
    rw [update, hd]
    apply inv_ok_update_perf
    rw [hp] at hi
    exact hi
  | op_select al rows r =>
    show inv_ok ((select_exercise al s rows r).2) = true
    have hsnd : (select_exercise al s rows r).2 = init_tracking s := by
      unfold select_exercise
      split_ifs <;> rfl
    rw [hsnd]
    exact inv_ok_init s h
  | op_weak => exact h

theorem inv_ok_foldl (ops : List Op) :
    ∀ s, inv_ok s = true → inv_ok (ops.foldl apply_op s) = true := by
  induction ops with
  | nil => exact fun s h => h
  | cons op ops ih => exact fun s h => ih (apply_op s op) (inv_ok_apply s op h)

/-- C8: in every session reachable from a fresh one by any sequence of
`init_tracking`, `update` (`record_outcome`), `select_exercise` and
`get_weak_areas` calls, every `ArmStats` in every category mapping has
`incorrect` at least 1: arms are seeded with `incorrect = 1` and counters
are only ever incremented. -/
theorem arm_incorrect_invariant (ops : List Op) :
    inv_ok (ops.foldl apply_op (none : Session)) = true :=
  inv_ok_foldl ops none rfl
